import Mathlib

/-!
Verification of the verba-meme-search core against its specification.

This file shallowly embeds the parts of the repository that the claims
C1..C10 are about:

* the Document/Chunk value model and its flat-map serialization
  (goldenverba/components/document.py, goldenverba/components/chunk.py);
* the ingestion duplicate filter (VerbaManager.import_data);
* retrieval reconciliation (VerbaManager.retrieve_chunks);
* the plan/confirm conversation state machine (PlanningGenerator);
* the timeline synthesis engine
  (StoryJSONGenerator.video_idea_to_timeline_commands).

Modelling conventions: Python floats are embedded as rationals; Python
open string-keyed dictionaries (meta, metadata, params) are embedded as
association lists with string values; a Python value that may be absent
or None is an Option.  External collaborators (vector store, chunker,
embedder, LLM, step executor) are function parameters.
-/

namespace Verba
/-- A chunk value, mirroring the attributes of class Chunk in
goldenverba/components/chunk.py.  The constructor defaults of the Python
class set tokens to 0, vector to None, score to 0 and meta to the empty
mapping; tokens, vector and score are then changed through setters. -/
structure Chunk where
  text : String
  doc_name : String
  doc_type : String
  doc_uuid : String
  chunk_id : String
  tokens : Nat
  vector : Option (List ℚ)
  score : ℚ
  public_id : String
  tags : String
  start : ℚ
  «end» : ℚ
  confidence : ℚ
  channel : Int
  speaker : ℚ
  original_id : String
  words : List (List (String × String))
  meta : List (String × String)
deriving DecidableEq, Repr

/-- The flat dictionary form of a Chunk: each field is an Option because a
dictionary handed to Chunk.from_dict may lack any key (from_dict reads
every key with data.get and a documented default). -/
structure ChunkDict where
  text : Option String
  doc_name : Option String
  doc_type : Option String
  doc_uuid : Option String
  chunk_id : Option String
  tokens : Option Nat
  vector : Option (Option (List ℚ))
  score : Option ℚ
  public_id : Option String
  tags : Option String
  meta : Option (List (String × String))
  start : Option ℚ
  «end» : Option ℚ
  confidence : Option ℚ
  channel : Option Int
  speaker : Option ℚ
  original_id : Option String
  words : Option (List (List (String × String)))
deriving DecidableEq, Repr

/-- Chunk.to_dict: every attribute is written to the dictionary, so every
key is present (some). -/
def Chunk.to_dict (c : Chunk) : ChunkDict :=
  { text := some c.text
    doc_name := some c.doc_name
    doc_type := some c.doc_type
    doc_uuid := some c.doc_uuid
    chunk_id := some c.chunk_id
    tokens := some c.tokens
    vector := some c.vector
    score := some c.score
    public_id := some c.public_id
    tags := some c.tags
    meta := some c.meta
    start := some c.start
    «end» := some c.«end»
    confidence := some c.confidence
    channel := some c.channel
    speaker := some c.speaker
    original_id := some c.original_id
    words := some c.words }

/-- Chunk.from_dict: reads each key with its documented default, then sets
tokens, vector and score through the setters.  The constructor leaves
meta as the empty mapping and from_dict never reads the meta key, so the
reconstructed chunk always has an empty meta. -/
def Chunk.from_dict (d : ChunkDict) : Chunk :=
  { text := d.text.getD ""
    doc_name := d.doc_name.getD ""
    doc_type := d.doc_type.getD ""
    doc_uuid := d.doc_uuid.getD ""
    chunk_id := d.chunk_id.getD ""
    public_id := d.public_id.getD ""
    tags := d.tags.getD ""
    start := d.start.getD 0
    «end» := d.«end».getD 0
    confidence := d.confidence.getD 0
    channel := d.channel.getD 0
    speaker := d.speaker.getD 0
    original_id := d.original_id.getD ""
    words := d.words.getD []
    tokens := d.tokens.getD 0
    vector := d.vector.getD none
    score := d.score.getD 0
    meta := [] }

/-- A document value, mirroring the attributes of class Document in
goldenverba/components/document.py. -/
structure Document where
  text : String
  type : String
  name : String
  path : String
  link : String
  timestamp : String
  reader : String
  tags : List String
  example_images : List String
  template_images : List String
  meta : List (String × String)
  metadata : List (String × String)
  views : String
  comments : String
  status : String
  year : String
  origin : String
  chunks : List Chunk
deriving DecidableEq, Repr

/-- The flat dictionary form of a Document, again with every key
optional because Document.from_json reads each key with a default. -/
structure DocumentDict where
  text : Option String
  type : Option String
  name : Option String
  path : Option String
  link : Option String
  timestamp : Option String
  reader : Option String
  metadata : Option (List (String × String))
  tags : Option (List String)
  example_images : Option (List String)
  template_images : Option (List String)
  views : Option String
  comments : Option String
  status : Option String
  year : Option String
  origin : Option String
  meta : Option (List (String × String))
  chunks : Option (List ChunkDict)
deriving DecidableEq, Repr

/-- Document.to_json: writes every attribute except meta — the source
builds a dictionary that has no meta key at all, so that field of the
flat form is none. -/
def Document.to_json (doc : Document) : DocumentDict :=
  { text := some doc.text
    type := some doc.type
    name := some doc.name
    path := some doc.path
    link := some doc.link
    timestamp := some doc.timestamp
    reader := some doc.reader
    metadata := some doc.metadata
    tags := some doc.tags
    example_images := some doc.example_images
    template_images := some doc.template_images
    views := some doc.views
    comments := some doc.comments
    status := some doc.status
    year := some doc.year
    origin := some doc.origin
    meta := none
    chunks := some (doc.chunks.map Chunk.to_dict) }

/-- Document.from_json: reads every key with its documented default and
rebuilds the chunk list through Chunk.from_dict. -/
def Document.from_json (d : DocumentDict) : Document :=
  { text := d.text.getD ""
    type := d.type.getD ""
    name := d.name.getD ""
    path := d.path.getD ""
    link := d.link.getD ""
    timestamp := d.timestamp.getD ""
    reader := d.reader.getD ""
    tags := d.tags.getD []
    example_images := d.example_images.getD []
    template_images := d.template_images.getD []
    views := d.views.getD ""
    comments := d.comments.getD ""
    status := d.status.getD ""
    year := d.year.getD ""
    origin := d.origin.getD ""
    meta := d.meta.getD []
    metadata := d.metadata.getD []
    chunks := (d.chunks.getD []).map Chunk.from_dict }

/-- A document with every field at its default except for a non-empty
meta mapping: a concrete input for the round-trip claim. -/
def docWithMeta : Document :=
  { text := "", type := "", name := "", path := "", link := "", timestamp := ""
    reader := "", tags := [], example_images := [], template_images := []
    meta := [("k", "v")], metadata := [], views := "", comments := ""
    status := "", year := "", origin := "", chunks := [] }

/-- One entry of the per-fragment chunk_info list persisted on a parent
document.  The reconciliation code consults only its chunk_id key (read
with ci.get, hence optional); the rest of the record is passed through
untouched and is kept opaque here. -/
structure StoredInfo where
  chunk_id : Option String
  payload : String
deriving DecidableEq, Repr

/-- The parent document as fetched from the store for reconciliation:
only properties.chunk_info is consulted (absent keys default to the
empty list). -/
structure StoredDoc where
  chunk_info : List StoredInfo
deriving DecidableEq, Repr

/-- The fallback chunk-info record that retrieve_chunks synthesizes from
the fields of the retrieved Chunk itself when no per-fragment metadata
entry matches its chunk_id. -/
structure FallbackInfo where
  public_id : String
  tags : String
  text : String
  doc_name : String
  doc_type : String
  doc_uuid : String
  chunk_id : String
  start : ℚ
  «end» : ℚ
  confidence : ℚ
  channel : Int
  speaker : ℚ
  original_id : String
  words : List (List (String × String))
  meta : List (String × String)
deriving DecidableEq, Repr

/-- A record of the chunk-info list returned by retrieve_chunks: either a
matching persisted per-fragment record or a synthesized fallback. -/
inductive ChunkInfo where
  | stored (rec : StoredInfo)
  | fallback (rec : FallbackInfo)
deriving DecidableEq, Repr

/-- Builds the fallback record from the fields of the Chunk, exactly the
dictionary literal at the fallback branch of retrieve_chunks. -/
def fallbackOf (c : Chunk) : FallbackInfo :=
  { public_id := c.public_id
    tags := c.tags
    text := c.text
    doc_name := c.doc_name
    doc_type := c.doc_type
    doc_uuid := c.doc_uuid
    chunk_id := c.chunk_id
    start := c.start
    «end» := c.«end»
    confidence := c.confidence
    channel := c.channel
    speaker := c.speaker
    original_id := c.original_id
    words := c.words
    meta := c.meta }

/-- The per-chunk reconciliation of retrieve_chunks: fetch the parent
document by doc_uuid (a falsy result — None or empty — is none); when a
document is there, take the first chunk_info entry whose chunk_id equals
the chunk_id of the chunk, else synthesize the fallback record.  A none
result means the chunk is dropped from both output lists. -/
def reconcileStep (fetch : String → Option StoredDoc) (c : Chunk) :
    Option ChunkInfo :=
  match fetch c.doc_uuid with
  | none => none
  | some doc =>
    match doc.chunk_info.find? (fun rec => rec.chunk_id == some c.chunk_id) with
    | some rec => some (ChunkInfo.stored rec)
    | none => some (ChunkInfo.fallback (fallbackOf c))

/-- VerbaManager.retrieve_chunks, reconciliation loop: walks the
retrieved chunks in order, appending to processed_chunks and chunk_info
exactly when the parent-document fetch is truthy.  The loop appends at
the right end; the structural recursion below builds the same two lists
in the same order.  The combined context string and the convenience
first-template pointer of the source are not modelled: no claim is about
them. -/
def retrieve_chunks (fetch : String → Option StoredDoc) :
    List Chunk → List Chunk × List ChunkInfo
  | [] => ([], [])
  | c :: rest =>
    match reconcileStep fetch c with
    | none => retrieve_chunks fetch rest
    | some info =>
      (c :: (retrieve_chunks fetch rest).1, info :: (retrieve_chunks fetch rest).2)

/-- A concrete chunk with every field at its default. -/
def chunk0 : Chunk :=
  { text := "", doc_name := "", doc_type := "", doc_uuid := "", chunk_id := ""
    tokens := 0, vector := none, score := 0, public_id := "", tags := ""
    start := 0, «end» := 0, confidence := 0, channel := 0, speaker := 0
    original_id := "", words := [], meta := [] }

/-- One record of the structured ingestion log threaded through every
stage, a severity type plus a message. -/
structure LogEntry where
  type : String
  message : String
deriving DecidableEq, Repr

/-- The WARNING entry appended for a document whose name already exists,
with the exact message of the source. -/
def duplicateWarning (d : Document) : LogEntry :=
  ⟨"WARNING", d.name ++ " already exists."⟩

/-- The duplicate filter loop of VerbaManager.import_data: each loaded
document whose name already exists in the store (existsName abstracts
check_if_document_exits) is dropped and a WARNING entry is appended to
the running log; the others are kept in order. -/
def filterDuplicates (existsName : String → Bool) :
    List Document → List LogEntry → List Document × List LogEntry
  | [], log => ([], log)
  | d :: rest, log =>
    if existsName d.name then
      filterDuplicates existsName rest (log ++ [duplicateWarning d])
    else
      ((d :: (filterDuplicates existsName rest log).1),
        (filterDuplicates existsName rest log).2)

/-- VerbaManager.import_data after the reader stage: filter duplicates,
chunk the remaining documents, embed them, and return the chunked
documents with the final log.  The reader, chunker and embedder are the
external stage collaborators, passed as functions. -/
def import_data (existsName : String → Bool)
    (chunk : List Document → List LogEntry → List Document × List LogEntry)
    (embed : List Document → List LogEntry → List LogEntry)
    (loaded : List Document) (log : List LogEntry) :
    List Document × List LogEntry :=
  let fl := filterDuplicates existsName loaded log
  let ml := chunk fl.1 fl.2
  (ml.1, embed ml.1 ml.2)

/-- A document with a given name and every other field at its default. -/
def docNamed (n : String) : Document :=
  { text := "", type := "", name := n, path := "", link := "", timestamp := ""
    reader := "", tags := [], example_images := [], template_images := []
    meta := [], metadata := [], views := "", comments := "", status := ""
    year := "", origin := "", chunks := [] }

/-- One typed operation of an editing plan (PlanningGenerator): a name,
an open parameter mapping, and a human-readable description. -/
structure EditingOperation where
  operation : String
  params : List (String × String)
  description : String
deriving DecidableEq, Repr

/-- An editing plan: an ordered list of operations plus a summary. -/
structure EditingPlan where
  steps : List EditingOperation
  summary : String
deriving DecidableEq, Repr

/-- A step of a raw, schema-invalid plan payload as consumed by the
manual extraction fallback of handle_initial_request: every field may be
absent. -/
structure RawStep where
  operation : Option String
  params : Option (List (String × String))
  description : Option String
deriving DecidableEq, Repr

/-- Manual field extraction for one raw step, with the documented
placeholder defaults of the source. -/
def extractStep (r : RawStep) : EditingOperation :=
  { operation := r.operation.getD "Unknown operation"
    params := r.params.getD []
    description := r.description.getD "No description provided" }

/-- Outcome of the plan-generation LLM call of an instruction turn:
the call may time out, return a schema-conforming plan, return a JSON
payload that fails schema validation (recovered by manual extraction),
or return a payload that is not even JSON (the extraction itself
raises). -/
inductive PlanOutcome where
  | timeout
  | valid (p : EditingPlan)
  | invalidButJson (steps : List RawStep)
  | invalidNotJson
deriving DecidableEq, Repr

/-- Outcome of the constrained intent-classification call of a
confirmation turn. -/
inductive Intent where
  | confirm
  | change
  | clarify
  | other (s : String)
deriving DecidableEq, Repr

/-- The two machine states of the plan/confirm protocol. -/
inductive MachineState where
  | awaitingInstruction
  | awaitingConfirmation
deriving DecidableEq, Repr

/-- The state a turn reads and writes: the per-instance machine state
plus the conversation side channel.  The outer Option is whether a
conversation mapping was passed at all; the inner Option is whether it
holds a stored last_plan. -/
structure GenState where
  state : MachineState
  conversation : Option (Option EditingPlan)
deriving DecidableEq, Repr

/-- The per-step execution record appended by execute_plan: on success a
result string and status success, on a caught failure an error string
and status failed. -/
structure StepResult where
  operation : String
  description : String
  result : Option String
  error : Option String
  status : String
deriving DecidableEq, Repr

/-- The record execute_plan builds for one step, each step catching its
own failure; execOp is the operation dispatch (insert_clip,
delete_section, or the not-implemented default) together with whatever
the underlying editing collaborator raises. -/
def stepRecord (execOp : EditingOperation → Except String String)
    (step : EditingOperation) : StepResult :=
  match execOp step with
  | Except.ok r =>
    { operation := step.operation, description := step.description
      result := some r, error := none, status := "success" }
  | Except.error e =>
    { operation := step.operation, description := step.description
      result := none, error := some e, status := "failed" }

/-- PlanningGenerator.execute_plan: every step of the plan is executed
in order, failures caught per step, one record per step. -/
def execute_plan (execOp : EditingOperation → Except String String)
    (p : EditingPlan) : List StepResult :=
  p.steps.map (stepRecord execOp)

/-- The operation dispatch of execute_plan with the placeholder
insert_clip and delete_section bodies of the source, which format the
parameters into a result string and never fail. -/
def placeholderDispatch (render : List (String × String) → String)
    (step : EditingOperation) : Except String String :=
  if step.operation = "insert_clip" then
    Except.ok ("Inserted clip with parameters: " ++ render step.params)
  else if step.operation = "delete_section" then
    Except.ok ("Deleted section with parameters: " ++ render step.params)
  else
    Except.ok ("Operation " ++ step.operation ++ " not implemented")

/-- What one turn hands back besides the new state: the execution
records (empty unless a stored plan was confirmed and run), the freshly
generated plan if any, and whether the turn surfaced an error. -/
structure TurnResult where
  executed : List StepResult
  plan : Option EditingPlan
  isError : Bool
deriving DecidableEq, Repr

/-- One turn of PlanningGenerator.generate.  In AWAITING_INSTRUCTION the
turn runs handle_initial_request: a timeout or an unparseable payload
surfaces an error and changes nothing; otherwise the (validated or
manually extracted) plan is stored into the conversation side channel
when one is present and the machine moves to AWAITING_CONFIRMATION.  In
AWAITING_CONFIRMATION the turn runs handle_confirmation on the
classified intent: CONFIRM with a stored plan executes every step and
returns to AWAITING_INSTRUCTION; CONFIRM without one surfaces an error
and stays; CHANGE returns to AWAITING_INSTRUCTION executing nothing;
CLARIFY and any unexpected classification stay, the latter as an
error. -/
def planningStep (execOp : EditingOperation → Except String String)
    (g : GenState) (planGen : PlanOutcome) (intent : Intent) :
    GenState × TurnResult :=
  match g.state with
  | MachineState.awaitingInstruction =>
    match planGen with
    | PlanOutcome.timeout => (g, ⟨[], none, true⟩)
    | PlanOutcome.invalidNotJson => (g, ⟨[], none, true⟩)
    | PlanOutcome.valid p =>
      (⟨MachineState.awaitingConfirmation, g.conversation.map (fun _ => some p)⟩,
        ⟨[], some p, false⟩)
    | PlanOutcome.invalidButJson raw =>
      let p : EditingPlan := ⟨raw.map extractStep, "Error in plan generation"⟩
      (⟨MachineState.awaitingConfirmation, g.conversation.map (fun _ => some p)⟩,
        ⟨[], some p, false⟩)
  | MachineState.awaitingConfirmation =>
    match intent with
    | Intent.confirm =>
      match g.conversation with
      | some (some plan) =>
        (⟨MachineState.awaitingInstruction, g.conversation⟩,
          ⟨execute_plan execOp plan, none, false⟩)
      | _ => (g, ⟨[], none, true⟩)
    | Intent.change =>
      (⟨MachineState.awaitingInstruction, g.conversation⟩, ⟨[], none, false⟩)
    | Intent.clarify => (g, ⟨[], none, false⟩)
    | Intent.other _ => (g, ⟨[], none, true⟩)

/-- A tiny concrete plan for witnesses. -/
def demoPlan : EditingPlan :=
  ⟨[⟨"insert_clip", [("path", "a.mp4")], "insert the clip"⟩], "one step"⟩

/-- A concrete executor for closed statements: renders parameters by
joining the key-value pairs. -/
def demoExec : EditingOperation → Except String String :=
  placeholderDispatch (fun ps => String.intercalate ", "
    (ps.map (fun kv => kv.1 ++ "=" ++ kv.2)))

/-- A dialogue line of the detailed shot schema (pydantic DialogueLine):
the audio asset fields and the duration are optional, absent until TTS
resolves them.  Python truthiness of the fields matters below, so the
empty string and the zero duration count as absent. -/
structure DialogueLine where
  character : String
  line : String
  audio_file : Option String
  audio_url : Option String
  duration : Option ℚ
deriving DecidableEq, Repr

/-- The three fixed image layer roles (pydantic Literal). -/
inductive ImageLayerName where
  | Background
  | Subject
  | Foreground
deriving DecidableEq, Repr

/-- The three fixed sound layer roles (pydantic Literal). -/
inductive SoundLayerName where
  | Foley
  | Ambiance
  | Music
deriving DecidableEq, Repr

/-- An image layer of a shot; pydantic validates duration ≥ 0.1. -/
structure ImageLayer where
  layer : ImageLayerName
  duration : ℚ
  description : String
deriving DecidableEq, Repr

/-- A sound effect of a shot; pydantic validates duration ≥ 0.1. -/
structure SoundEffect where
  layer : SoundLayerName
  duration : ℚ
  description : String
deriving DecidableEq, Repr

/-- A detailed shot; pydantic validates shot_number ≥ 1 and
duration ≥ 0.1. -/
structure DetailedShot where
  shot_number : Nat
  description : String
  dialogue : List DialogueLine
  duration : ℚ
  images : List ImageLayer
  sound_effects : List SoundEffect
deriving DecidableEq, Repr

/-- The detailed story schema fed to timeline synthesis. -/
structure DetailedStorySchema where
  shots : List DetailedShot
deriving DecidableEq, Repr

/-- The pydantic validation constraints of the detailed schema, plus
nonnegativity of resolved dialogue durations (the pipeline sets them
from measured audio lengths); durations read 0 when absent. -/
def ValidShot (shot : DetailedShot) : Prop :=
  1 ≤ shot.shot_number ∧ (1 / 10 : ℚ) ≤ shot.duration ∧
  (∀ img ∈ shot.images, (1 / 10 : ℚ) ≤ img.duration) ∧
  (∀ se ∈ shot.sound_effects, (1 / 10 : ℚ) ≤ se.duration) ∧
  (∀ line ∈ shot.dialogue, 0 ≤ line.duration.getD 0)

/-- A schema every shot of which satisfies the validation constraints. -/
def ValidSchema (v : DetailedStorySchema) : Prop :=
  ∀ shot ∈ v.shots, ValidShot shot

/-- The transform attached to a video clip command, from the template
table of get_transform. -/
structure Transform where
  x : Int
  y : Int
  scale : ℚ
  rotation : ℚ
deriving DecidableEq, Repr

/-- get_transform with the default template argument
chad_vs_soyjak_2_panels of the source. -/
def get_transform : ImageLayerName → Transform
  | ImageLayerName.Background => ⟨0, 0, 1, 0⟩
  | ImageLayerName.Subject => ⟨-320, 0, 1 / 2, 0⟩
  | ImageLayerName.Foreground => ⟨320, 0, 1 / 2, 0⟩

/-- The assetType field of an emitted clip. -/
inductive AssetType where
  | video
  | audio
deriving DecidableEq, Repr

/-- One insert_clip command of the emitted timeline command set. -/
structure ClipCommand where
  clipPath : String
  url : String
  length : ℚ
  track : Nat
  start : ℚ
  speed : ℚ
  assetType : AssetType
  transform : Option Transform
deriving DecidableEq, Repr

/-- The fixed dedicated video track of each image layer role. -/
def videoTrack : ImageLayerName → Nat
  | ImageLayerName.Background => 1
  | ImageLayerName.Subject => 2
  | ImageLayerName.Foreground => 3

/-- Lower-case layer name used in video clip paths. -/
def imageLayerLower : ImageLayerName → String
  | ImageLayerName.Background => "background"
  | ImageLayerName.Subject => "subject"
  | ImageLayerName.Foreground => "foreground"

/-- Lower-case layer name used in sound clip paths. -/
def soundLayerLower : SoundLayerName → String
  | SoundLayerName.Foley => "foley"
  | SoundLayerName.Ambiance => "ambiance"
  | SoundLayerName.Music => "music"

/-- Python truthiness of an optional string: absent and empty are
falsy. -/
def strTruthy : Option String → Bool
  | none => false
  | some s => s != ""

/-- Python truthiness of an optional number: absent and zero are
falsy. -/
def qTruthy : Option ℚ → Bool
  | none => false
  | some q => q != 0

/-- The dynamic audio track allocator state: audio_next_track and
audio_track_end_times — a Python dictionary from track id to the time
the track becomes free, embedded as an association list in insertion
order (Python dictionaries iterate in insertion order). -/
structure AllocState where
  next : Nat
  ends : List (Nat × ℚ)
deriving DecidableEq, Repr

/-- The scan of audio_track_end_times in insertion order: the first
track whose recorded end time is at or before the intended start. -/
def findFree (start : ℚ) : List (Nat × ℚ) → Option (Nat × ℚ)
  | [] => none
  | (t, e) :: rest => if start ≥ e then some (t, e) else findFree start rest

/-- Dictionary assignment audio_track_end_times[t] = e: replaces the
value of an existing key in place, appends a new key at the end. -/
def setEnd (t : Nat) (e : ℚ) : List (Nat × ℚ) → List (Nat × ℚ)
  | [] => [(t, e)]
  | (u, v) :: rest =>
    if u = t then (t, e) :: rest else (u, v) :: setEnd t e rest

/-- The dynamic allocation of one audio clip starting at start for dur:
reuse the first free track, else allocate a fresh id from next; either
way record the new free time start + dur for the chosen track. -/
def allocTrack (start dur : ℚ) (a : AllocState) : Nat × AllocState :=
  match findFree start a.ends with
  | some te => (te.1, ⟨a.next, setEnd te.1 (start + dur) a.ends⟩)
  | none => (a.next, ⟨a.next + 1, setEnd a.next (start + dur) a.ends⟩)

/-- The insert_clip command for one image layer of a shot. -/
def imageCommand (cloud : String) (time : ℚ) (shotNum : Nat)
    (img : ImageLayer) : ClipCommand :=
  { clipPath := imageLayerLower img.layer ++ "_" ++ toString shotNum ++ ".png"
    url := "https://res.cloudinary.com/" ++ cloud ++ "/video/" ++
      (imageLayerLower img.layer ++ "_" ++ toString shotNum ++ ".png")
    length := img.duration
    track := videoTrack img.layer
    start := time
    speed := 1
    assetType := AssetType.video
    transform := some (get_transform img.layer) }

/-- The image layers of a shot in emission order: the source iterates
the three fixed roles in order and filters the shot images for each. -/
def orderedImages (imgs : List ImageLayer) : List ImageLayer :=
  imgs.filter (fun i => i.layer == ImageLayerName.Background) ++
    imgs.filter (fun i => i.layer == ImageLayerName.Subject) ++
    imgs.filter (fun i => i.layer == ImageLayerName.Foreground)

/-- All video commands of one shot, each placed at the shot start on the
fixed track of its role. -/
def imageCommands (cloud : String) (time : ℚ) (shotNum : Nat)
    (imgs : List ImageLayer) : List ClipCommand :=
  (orderedImages imgs).map (imageCommand cloud time shotNum)

/-- The insert_clip command for one sound effect on a dynamically
assigned track. -/
def soundCommand (cloud : String) (time : ℚ) (shotNum : Nat)
    (se : SoundEffect) (track : Nat) : ClipCommand :=
  { clipPath := soundLayerLower se.layer ++ "_" ++ toString shotNum ++ ".wav"
    url := "https://res.cloudinary.com/" ++ cloud ++ "/video/upload/" ++
      (soundLayerLower se.layer ++ "_" ++ toString shotNum ++ ".wav")
    length := se.duration
    track := track
    start := time
    speed := 1
    assetType := AssetType.audio
    transform := none }

/-- The sound-effect loop of one shot: every effect starts at the shot
start and takes a dynamically allocated audio track. -/
def soundsFold (cloud : String) (time : ℚ) (shotNum : Nat) :
    AllocState × List ClipCommand → List SoundEffect →
      AllocState × List ClipCommand
  | st, [] => st
  | st, se :: rest =>
    let ta := allocTrack time se.duration st.1
    soundsFold cloud time shotNum
      (ta.2, st.2 ++ [soundCommand cloud time shotNum se ta.1]) rest

/-- The insert_clip command for one resolved dialogue line. -/
def dialogueCommand (cloud : String) (start : ℚ) (path : String) (d : ℚ)
    (track : Nat) : ClipCommand :=
  { clipPath := path
    url := "https://res.cloudinary.com/" ++ cloud ++ "/video/upload/" ++ path
    length := d
    track := track
    start := start
    speed := 1
    assetType := AssetType.audio
    transform := none }

/-- The state of the dialogue loop within one shot: the running
dialogue_start_time, the allocator, the emitted commands and the warning
log lines. -/
structure DiaState where
  dst : ℚ
  alloc : AllocState
  acts : List ClipCommand
  logs : List String
deriving DecidableEq, Repr

/-- One dialogue line: if the line has a truthy audio_file and a truthy
duration, a command is emitted at dialogue_start_time on a dynamically
allocated track and the start time advances by the duration; otherwise
the line is skipped with a warning log line and nothing else changes. -/
def dialogueStep (cloud : String) (s : DiaState) (line : DialogueLine) :
    DiaState :=
  if strTruthy line.audio_file && qTruthy line.duration then
    let d := line.duration.getD 0
    let path := line.audio_file.getD ""
    let ta := allocTrack s.dst d s.alloc
    { dst := s.dst + d
      alloc := ta.2
      acts := s.acts ++ [dialogueCommand cloud s.dst path d ta.1]
      logs := s.logs }
  else
    { s with
      logs := s.logs ++
        ["No audio file or duration for dialogue line: " ++ line.line] }

/-- The dialogue loop of one shot. -/
def dialogueFold (cloud : String) : DiaState → List DialogueLine → DiaState
  | s, [] => s
  | s, line :: rest => dialogueFold cloud (dialogueStep cloud s line) rest

/-- The running state of timeline synthesis: current_time, the audio
track allocator, the emitted actions in order, and the warning log. -/
structure SynthState where
  time : ℚ
  alloc : AllocState
  actions : List ClipCommand
  logs : List String
deriving DecidableEq, Repr

/-- One shot of the synthesis loop: image layers at the shot start on
their fixed tracks, then sound effects, then dialogue lines sequenced
from the shot start; finally current_time advances by the full declared
shot duration. -/
def processShot (cloud : String) (st : SynthState) (shot : DetailedShot) :
    SynthState :=
  let acts1 := st.actions ++
    imageCommands cloud st.time shot.shot_number shot.images
  let sa := soundsFold cloud st.time shot.shot_number (st.alloc, acts1)
    shot.sound_effects
  let ds := dialogueFold cloud ⟨st.time, sa.1, sa.2, st.logs⟩ shot.dialogue
  { time := st.time + shot.duration
    alloc := ds.alloc
    actions := ds.acts
    logs := ds.logs }

/-- The shot loop. -/
def shotsFold (cloud : String) : SynthState → List DetailedShot → SynthState
  | st, [] => st
  | st, shot :: rest => shotsFold cloud (processShot cloud st shot) rest

/-- StoryJSONGenerator.video_idea_to_timeline_commands: current_time
starts at 0, the allocator starts with audio_next_track = 1 and an empty
end-time table, and the shots are processed in order.  The Cloudinary
cloud name read from the environment is a parameter. -/
def video_idea_to_timeline_commands (cloud : String)
    (v : DetailedStorySchema) : SynthState :=
  shotsFold cloud ⟨0, ⟨1, []⟩, [], []⟩ v.shots

/-- Two commands on the same track must have disjoint half-open
intervals: one ends at or before the other starts. -/
def sameTrackSeparated (c1 c2 : ClipCommand) : Prop :=
  c1.track = c2.track →
    (c1.start + c1.length ≤ c2.start ∨ c2.start + c2.length ≤ c1.start)

/-- No two commands of the list that carry the same track number have
overlapping half-open intervals. -/
def noTrackOverlap (l : List ClipCommand) : Prop :=
  l.Pairwise sameTrackSeparated

/-- The audio commands of an action list. -/
def audioClips (l : List ClipCommand) : List ClipCommand :=
  l.filter (fun c => c.assetType == AssetType.audio)

/-- A valid one-shot schema holding one background image and one foley
sound, both one second long. -/
def cx1 : DetailedStorySchema :=
  ⟨[{ shot_number := 1, description := "", dialogue := []
      duration := 1, images := [⟨ImageLayerName.Background, 1, ""⟩]
      sound_effects := [⟨SoundLayerName.Foley, 1, ""⟩] }]⟩

/-- The video command cx1 emits: background track 1, the full shot. -/
def cmdV : ClipCommand :=
  { clipPath := "background_1.png"
    url := "https://res.cloudinary.com/c/video/background_1.png"
    length := 1, track := 1, start := 0, speed := 1
    assetType := AssetType.video, transform := some ⟨0, 0, 1, 0⟩ }

/-- The audio command cx1 emits: the allocator also hands out track 1. -/
def cmdA : ClipCommand :=
  { clipPath := "foley_1.wav"
    url := "https://res.cloudinary.com/c/video/upload/foley_1.wav"
    length := 1, track := 1, start := 0, speed := 1
    assetType := AssetType.audio, transform := none }

/-- A dialogue line with neither an audio asset nor a duration. -/
def lineNoAudio : DialogueLine :=
  { character := "n", line := "l", audio_file := none, audio_url := none
    duration := none }

/-- A resolved dialogue line, two seconds long. -/
def diaLine : DialogueLine :=
  { character := "n", line := "l", audio_file := some "n_l.mp3"
    audio_url := none, duration := some 2 }

/-- A contentless shot of duration 5. -/
def shotA : DetailedShot :=
  { shot_number := 1, description := "", dialogue := [], duration := 5
    images := [], sound_effects := [] }

/-- A contentless shot of duration 3. -/
def shotB : DetailedShot :=
  { shot_number := 2, description := "", dialogue := [], duration := 3
    images := [], sound_effects := [] }

/-- One shot of duration 4 with three resolved two-second dialogue
lines. -/
def cx9 : DetailedStorySchema :=
  ⟨[{ shot_number := 1, description := ""
      dialogue := [diaLine, diaLine, diaLine], duration := 4
      images := [], sound_effects := [] }]⟩

/-- invariant -/
def AllocInv (a : AllocState) (acts : List ClipCommand) : Prop :=
  (a.ends.map Prod.fst).Nodup ∧
  (∀ p ∈ a.ends, p.1 < a.next) ∧
  (∀ c ∈ acts, c.assetType = AssetType.audio →
    ∃ e, (c.track, e) ∈ a.ends ∧ c.start + c.length ≤ e) ∧
  noTrackOverlap (audioClips acts)

/-- The chunk round trip loses exactly the meta mapping: every other
field is reconstructed unchanged. -/
theorem chunk_roundtrip_drops_meta (c : Chunk) :
    Chunk.from_dict (Chunk.to_dict c) = { c with meta := [] } := by
  cases c
  rfl

/-- Claim C2, as stated: deserializing the serialized flat map of any
Document reconstructs an equivalent value field for field.  Refuted at a
document whose meta mapping is non-empty: to_json emits no meta key and
the round trip resets meta to the empty mapping. -/
theorem document_roundtrip_counterexample :
    Document.from_json (Document.to_json docWithMeta) ≠ docWithMeta := by
  decide

/-- Claim C2, amended: the round trip reconstructs every field of a
Document except the document-level meta mapping and each chunk-level
meta mapping, which are reset to empty (to_json writes no meta key and
Chunk.from_dict never reads one); all other absent keys take their
documented defaults. -/
theorem document_roundtrip_amended (doc : Document) :
    Document.from_json (Document.to_json doc) =
      { doc with
        meta := []
        chunks := doc.chunks.map (fun c => { c with meta := [] }) } := by
  cases doc with
  | mk text type name path link timestamp reader tags ex tpl meta metadata
      views comments status year origin chunks =>
    simp only [Document.to_json, Document.from_json, Option.getD_some,
      List.map_map, Document.mk.injEq, List.map_inj_left, Function.comp_apply,
      true_and, and_true]
    exact ⟨rfl, fun c _ => chunk_roundtrip_drops_meta c⟩

/-- The processed-chunk list is exactly the input chunks whose parent
document fetch succeeded, in input order. -/
theorem retrieve_chunks_fst (fetch : String → Option StoredDoc)
    (chunks : List Chunk) :
    (retrieve_chunks fetch chunks).1 =
      chunks.filter (fun c => (fetch c.doc_uuid).isSome) := by
  induction chunks with
  | nil => rfl
  | cons c rest ih =>
    by_cases h : (fetch c.doc_uuid).isSome
    · obtain ⟨doc, hdoc⟩ := Option.isSome_iff_exists.mp h
      have hstep : ∃ info, reconcileStep fetch c = some info := by
        simp only [reconcileStep, hdoc]
        cases doc.chunk_info.find? (fun rec => rec.chunk_id == some c.chunk_id) <;>
          exact ⟨_, rfl⟩
      obtain ⟨info, hinfo⟩ := hstep
      simp [retrieve_chunks, hinfo, List.filter_cons, h, ih]
    · have hnone : fetch c.doc_uuid = none := Option.not_isSome_iff_eq_none.mp h
      have hstep : reconcileStep fetch c = none := by
        simp only [reconcileStep, hnone]
      simp [retrieve_chunks, hstep, List.filter_cons, h, ih]

/-- The two output lists always have the same length. -/
theorem retrieve_chunks_lengths (fetch : String → Option StoredDoc)
    (chunks : List Chunk) :
    (retrieve_chunks fetch chunks).2.length =
      (retrieve_chunks fetch chunks).1.length := by
  induction chunks with
  | nil => rfl
  | cons c rest ih =>
    cases hstep : reconcileStep fetch c <;>
      simp [retrieve_chunks, hstep, ih]

/-- Claim C5, as stated: the returned chunk-info list always has the same
length as the input chunk list.  Refuted when a parent-document fetch
returns nothing: a one-chunk input with a missing document yields an
empty chunk-info list. -/
theorem retrieve_chunks_length_counterexample :
    ¬ ((retrieve_chunks (fun _ => none) [chunk0]).2.length = [chunk0].length) := by
  decide

/-- Claim C5, amended: when the parent-document fetch succeeds for every
input chunk, the chunk-info list has the same length as the input list
and the processed-chunk list is the input list itself — one record per
chunk, in the order handed over by the retriever, nothing omitted or
re-ordered. -/
theorem retrieve_chunks_length_order (fetch : String → Option StoredDoc)
    (chunks : List Chunk)
    (hall : ∀ c ∈ chunks, (fetch c.doc_uuid).isSome) :
    (retrieve_chunks fetch chunks).1 = chunks ∧
      (retrieve_chunks fetch chunks).2.length = chunks.length := by
  have hfst : (retrieve_chunks fetch chunks).1 = chunks := by
    rw [retrieve_chunks_fst]
    exact List.filter_eq_self.mpr (fun c hc => by simpa using hall c hc)
  exact ⟨hfst, by rw [retrieve_chunks_lengths, hfst]⟩

/-- Witness for the amended C5 at a concrete store and one-chunk input. -/
theorem retrieve_chunks_length_order_witness :
    (retrieve_chunks (fun _ => some ⟨[]⟩) [chunk0]).1 = [chunk0] ∧
      (retrieve_chunks (fun _ => some ⟨[]⟩) [chunk0]).2.length = [chunk0].length :=
  retrieve_chunks_length_order (fun _ => some ⟨[]⟩) [chunk0]
    (by intro c _; rfl)

/-- Claim C6: when the parent document of a retrieved chunk is fetched
but its per-fragment metadata has no entry whose chunk_id equals the
chunk_id of the chunk, the synthesized fallback record enters the
chunk-info output, and its text, public_id and tags are exactly the
fields of the chunk. -/
theorem fallback_matches_chunk_fields (fetch : String → Option StoredDoc)
    (chunks : List Chunk) (c : Chunk) (doc : StoredDoc)
    (hc : c ∈ chunks)
    (hdoc : fetch c.doc_uuid = some doc)
    (hfind : doc.chunk_info.find?
      (fun rec => rec.chunk_id == some c.chunk_id) = none) :
    ChunkInfo.fallback (fallbackOf c) ∈ (retrieve_chunks fetch chunks).2 ∧
      (fallbackOf c).text = c.text ∧
      (fallbackOf c).public_id = c.public_id ∧
      (fallbackOf c).tags = c.tags := by
  refine ⟨?_, rfl, rfl, rfl⟩
  have hstep : reconcileStep fetch c =
      some (ChunkInfo.fallback (fallbackOf c)) := by
    simp only [reconcileStep, hdoc, hfind]
  induction chunks with
  | nil => cases hc
  | cons d rest ih =>
    rcases List.mem_cons.mp hc with rfl | hmem
    · simp [retrieve_chunks, hstep]
    · cases hstepd : reconcileStep fetch d <;>
        simp [retrieve_chunks, hstepd, ih hmem]

/-- Witness for C6 at a concrete store whose document carries one
non-matching per-fragment record. -/
theorem fallback_matches_chunk_fields_witness :
    ChunkInfo.fallback (fallbackOf chunk0) ∈
      (retrieve_chunks (fun _ => some ⟨[⟨some "other", ""⟩]⟩) [chunk0]).2 ∧
      (fallbackOf chunk0).text = chunk0.text ∧
      (fallbackOf chunk0).public_id = chunk0.public_id ∧
      (fallbackOf chunk0).tags = chunk0.tags :=
  fallback_matches_chunk_fields (fun _ => some ⟨[⟨some "other", ""⟩]⟩)
    [chunk0] chunk0 ⟨[⟨some "other", ""⟩]⟩ (List.mem_singleton.mpr rfl) rfl
    (by decide)

/-- Claim C10: a retrieved chunk whose parent-document fetch comes back
empty or missing contributes nothing to either output list — deleting it
from the input leaves both outputs unchanged — so the outputs can be
strictly shorter than the input of the retriever.  The source writes no
log entry on this path (it only prints the final counts to the
console). -/
theorem missing_document_chunk_dropped (fetch : String → Option StoredDoc)
    (pre post : List Chunk) (c : Chunk)
    (hfetch : fetch c.doc_uuid = none) :
    retrieve_chunks fetch (pre ++ c :: post) = retrieve_chunks fetch (pre ++ post) := by
  have hstep : reconcileStep fetch c = none := by
    simp only [reconcileStep, hfetch]
  induction pre with
  | nil => simp [retrieve_chunks, hstep]
  | cons d rest ih =>
    cases hstepd : reconcileStep fetch d <;>
      simp [retrieve_chunks, hstepd, ih]

/-- Witness for C10: dropping the sole chunk of a one-chunk input under a
store that never finds its document. -/
theorem missing_document_chunk_dropped_witness :
    retrieve_chunks (fun _ => none) ([] ++ chunk0 :: []) =
      retrieve_chunks (fun _ => none) ([] ++ []) :=
  missing_document_chunk_dropped (fun _ => none) [] [] chunk0 rfl

/-- The duplicate filter keeps exactly the documents whose name is not in
the store, in input order. -/
theorem filterDuplicates_fst (existsName : String → Bool)
    (loaded : List Document) (log : List LogEntry) :
    (filterDuplicates existsName loaded log).1 =
      loaded.filter (fun d => !existsName d.name) := by
  induction loaded generalizing log with
  | nil => rfl
  | cons d rest ih =>
    by_cases h : existsName d.name <;>
      simp [filterDuplicates, h, List.filter_cons, ih]

/-- The duplicate filter appends exactly one WARNING entry per dropped
duplicate, in input order, and appends no other entry (in particular no
ERROR entry). -/
theorem filterDuplicates_snd (existsName : String → Bool)
    (loaded : List Document) (log : List LogEntry) :
    (filterDuplicates existsName loaded log).2 =
      log ++ (loaded.filter (fun d => existsName d.name)).map duplicateWarning := by
  induction loaded generalizing log with
  | nil => simp [filterDuplicates]
  | cons d rest ih =>
    by_cases h : existsName d.name <;>
      simp [filterDuplicates, h, List.filter_cons, ih]

/-- Claim C4: a loaded document whose name already exists is excluded
from the chunking input (part one), the filter stage appends exactly one
WARNING entry for each such document and zero ERROR entries (part two),
and no document with that name is in the returned set, assuming only
that the chunker emits documents drawn from the ones handed to it, so
ingestion continues with the remaining documents (part three). -/
theorem import_data_duplicate_handling (existsName : String → Bool)
    (chunk : List Document → List LogEntry → List Document × List LogEntry)
    (embed : List Document → List LogEntry → List LogEntry)
    (loaded : List Document) (log : List LogEntry)
    (hchunk : ∀ ds lg, ((chunk ds lg).1).map Document.name ⊆ ds.map Document.name) :
    (filterDuplicates existsName loaded log).1 =
      loaded.filter (fun d => !existsName d.name) ∧
    (filterDuplicates existsName loaded log).2 =
      log ++ (loaded.filter (fun d => existsName d.name)).map duplicateWarning ∧
    ∀ d ∈ loaded, existsName d.name = true →
      d.name ∉ (import_data existsName chunk embed loaded log).1.map Document.name := by
  refine ⟨filterDuplicates_fst existsName loaded log,
    filterDuplicates_snd existsName loaded log, ?_⟩
  intro d _ hex hmem
  have hsub := hchunk (filterDuplicates existsName loaded log).1
    (filterDuplicates existsName loaded log).2
  have h3 : d.name ∈ ((filterDuplicates existsName loaded log).1).map Document.name :=
    hsub hmem
  rw [filterDuplicates_fst] at h3
  obtain ⟨d', hd', hname⟩ := List.mem_map.mp h3
  have hkeep : existsName d'.name = false := by
    simpa using (List.mem_filter.mp hd').2
  rw [hname, hex] at hkeep
  exact Bool.noConfusion hkeep

/-- Witness for C4 at a concrete batch of two documents, one of which
already exists, with the identity chunker and embedder. -/
theorem import_data_duplicate_handling_witness :
    (filterDuplicates (fun n => n == "a") [docNamed "a", docNamed "b"] []).1 =
      [docNamed "a", docNamed "b"].filter (fun d => !(fun n => n == "a") d.name) ∧
    (filterDuplicates (fun n => n == "a") [docNamed "a", docNamed "b"] []).2 =
      [] ++ ([docNamed "a", docNamed "b"].filter
        (fun d => (fun n => n == "a") d.name)).map duplicateWarning ∧
    ∀ d ∈ [docNamed "a", docNamed "b"], (fun n => n == "a") d.name = true →
      d.name ∉ (import_data (fun n => n == "a") (fun ds lg => (ds, lg))
        (fun _ lg => lg) [docNamed "a", docNamed "b"] []).1.map Document.name :=
  import_data_duplicate_handling (fun n => n == "a") (fun ds lg => (ds, lg))
    (fun _ lg => lg) [docNamed "a", docNamed "b"] []
    (fun ds _ => List.Subset.refl (ds.map Document.name))

/-- Claim C3, as stated: from AWAITING_INSTRUCTION every instruction
turn transitions to AWAITING_CONFIRMATION and stores a non-null plan
(some plan, whichever it may be).  Refuted at the turn whose
plan-generation call times out: the machine stays in
AWAITING_INSTRUCTION, so in particular it does not transition, and the
conversation side channel still holds no plan at all. -/
theorem planning_instruction_turn_counterexample :
    ¬ ((planningStep demoExec ⟨MachineState.awaitingInstruction, some none⟩
        PlanOutcome.timeout Intent.confirm).1.state =
          MachineState.awaitingConfirmation ∧
      ∃ p, (planningStep demoExec ⟨MachineState.awaitingInstruction, some none⟩
        PlanOutcome.timeout Intent.confirm).1.conversation = some (some p)) ∧
    (planningStep demoExec ⟨MachineState.awaitingInstruction, some none⟩
      PlanOutcome.timeout Intent.confirm).1.state =
        MachineState.awaitingInstruction ∧
    (planningStep demoExec ⟨MachineState.awaitingInstruction, some none⟩
      PlanOutcome.timeout Intent.confirm).1.conversation = some none := by
  refine ⟨?_, rfl, rfl⟩
  intro h
  have h1 : MachineState.awaitingInstruction = MachineState.awaitingConfirmation := h.1
  exact MachineState.noConfusion h1

/-- Claim C3, amended: an instruction turn whose plan-generation call
times out or yields an unparseable payload leaves the machine in
AWAITING_INSTRUCTION with an error response, the conversation unchanged
and no plan stored (first conjunct); an instruction turn whose call
returns a payload (schema-valid, or recovered by the manual extraction
fallback) transitions to AWAITING_CONFIRMATION and stores that plan in
the conversation side channel when one is present.  From
AWAITING_CONFIRMATION with a stored plan, a CONFIRM turn executes every
step of the stored plan (one record per step; a failing step yields a
failed record with its error while the other steps still produce their
own records) and returns to AWAITING_INSTRUCTION; a CHANGE turn returns
to AWAITING_INSTRUCTION executing nothing. -/
theorem planning_machine_cycle (execOp : EditingOperation → Except String String)
    (conv : Option EditingPlan) (planGen : PlanOutcome) (intent : Intent) :
    (planGen = PlanOutcome.timeout ∨ planGen = PlanOutcome.invalidNotJson →
      planningStep execOp ⟨MachineState.awaitingInstruction, some conv⟩ planGen intent =
        (⟨MachineState.awaitingInstruction, some conv⟩, ⟨[], none, true⟩)) ∧
    (∀ p, planGen = PlanOutcome.valid p →
      planningStep execOp ⟨MachineState.awaitingInstruction, some conv⟩ planGen intent =
        (⟨MachineState.awaitingConfirmation, some (some p)⟩, ⟨[], some p, false⟩)) ∧
    (∀ raw, planGen = PlanOutcome.invalidButJson raw →
      planningStep execOp ⟨MachineState.awaitingInstruction, some conv⟩ planGen intent =
        (⟨MachineState.awaitingConfirmation,
          some (some ⟨raw.map extractStep, "Error in plan generation"⟩)⟩,
          ⟨[], some ⟨raw.map extractStep, "Error in plan generation"⟩, false⟩)) ∧
    (∀ plan, intent = Intent.confirm →
      planningStep execOp ⟨MachineState.awaitingConfirmation, some (some plan)⟩ planGen intent =
        (⟨MachineState.awaitingInstruction, some (some plan)⟩,
          ⟨plan.steps.map (stepRecord execOp), none, false⟩) ∧
      (plan.steps.map (stepRecord execOp)).length = plan.steps.length ∧
      (∀ step r, execOp step = Except.ok r →
        stepRecord execOp step = ⟨step.operation, step.description, some r, none, "success"⟩) ∧
      (∀ step e, execOp step = Except.error e →
        stepRecord execOp step = ⟨step.operation, step.description, none, some e, "failed"⟩)) ∧
    (∀ c, intent = Intent.change →
      planningStep execOp ⟨MachineState.awaitingConfirmation, c⟩ planGen intent =
        (⟨MachineState.awaitingInstruction, c⟩, ⟨[], none, false⟩)) := by
  refine ⟨?_, ?_, ?_, ?_, ?_⟩
  · intro h
    rcases h with rfl | rfl <;> rfl
  · intro p hp
    subst hp
    rfl
  · intro raw hraw
    subst hraw
    rfl
  · intro plan hi
    subst hi
    refine ⟨rfl, plan.steps.length_map _, ?_, ?_⟩
    · intro step r hr
      simp [stepRecord, hr]
    · intro step e he
      simp [stepRecord, he]
  · intro c hi
    subst hi
    rfl

/-- Witness for the amended C3: a concrete timed-out instruction turn
staying put with nothing stored, a concrete instruction turn storing the
demo plan, a concrete CONFIRM turn executing its single step, and a
concrete CHANGE turn executing nothing. -/
theorem planning_machine_cycle_witness :
    planningStep demoExec ⟨MachineState.awaitingInstruction, some none⟩
        PlanOutcome.timeout Intent.confirm =
      (⟨MachineState.awaitingInstruction, some none⟩, ⟨[], none, true⟩) ∧
    planningStep demoExec ⟨MachineState.awaitingInstruction, some none⟩
        (PlanOutcome.valid demoPlan) Intent.confirm =
      (⟨MachineState.awaitingConfirmation, some (some demoPlan)⟩,
        ⟨[], some demoPlan, false⟩) ∧
    planningStep demoExec ⟨MachineState.awaitingConfirmation, some (some demoPlan)⟩
        PlanOutcome.timeout Intent.confirm =
      (⟨MachineState.awaitingInstruction, some (some demoPlan)⟩,
        ⟨demoPlan.steps.map (stepRecord demoExec), none, false⟩) ∧
    planningStep demoExec ⟨MachineState.awaitingConfirmation, some (some demoPlan)⟩
        PlanOutcome.timeout Intent.change =
      (⟨MachineState.awaitingInstruction, some (some demoPlan)⟩, ⟨[], none, false⟩) :=
  ⟨(planning_machine_cycle demoExec none PlanOutcome.timeout
      Intent.confirm).1 (Or.inl rfl),
    (planning_machine_cycle demoExec none (PlanOutcome.valid demoPlan)
      Intent.confirm).2.1 demoPlan rfl,
    ((planning_machine_cycle demoExec none PlanOutcome.timeout
      Intent.confirm).2.2.2.1 demoPlan rfl).1,
    (planning_machine_cycle demoExec none PlanOutcome.timeout
      Intent.change).2.2.2.2 (some (some demoPlan)) rfl⟩

/-- Claim C1, as stated: over all emitted commands, video and audio
alike, no two commands with the same track number overlap.  Refuted at
the accepted schema cx1: the background image goes to fixed video track
1 and the foley sound to dynamically allocated audio track 1, both
starting at 0 with length 1 — the same track number with identical
intervals. -/
theorem timeline_track_overlap_counterexample :
    ¬ noTrackOverlap (video_idea_to_timeline_commands "c" cx1).actions ∧
      ValidSchema cx1 := by
  constructor
  · intro hno
    rw [show (video_idea_to_timeline_commands "c" cx1).actions = [cmdV, cmdA] from
      by with_unfolding_all rfl] at hno
    have h1 := (List.pairwise_cons.mp hno).1 cmdA (List.mem_singleton.mpr rfl)
    have h2 := h1 rfl
    simp only [cmdV, cmdA] at h2
    norm_num at h2
  · intro shot hs
    simp only [cx1, List.mem_singleton] at hs
    subst hs
    refine ⟨by norm_num, by norm_num, ?_, ?_, ?_⟩
    · intro img hi
      simp only [List.mem_singleton] at hi
      subst hi
      norm_num
    · intro se hse
      simp only [List.mem_singleton] at hse
      subst hse
      norm_num
    · intro line hl
      simp at hl

/-- Claim C7: a dialogue line without a truthy audio asset and a truthy
duration (lacking both, or possessing only one of the two) is skipped —
one warning log line is appended, no command (in particular no
zero-length command) is emitted, and the within-shot dialogue start
offset does not advance; a line possessing both emits exactly one
command of its nonzero duration and advances the offset by it. -/
theorem dialogue_line_skip_rule (cloud : String) (s : DiaState)
    (line : DialogueLine) :
    ((strTruthy line.audio_file && qTruthy line.duration) = false →
      dialogueStep cloud s line =
        { s with logs := s.logs ++
            ["No audio file or duration for dialogue line: " ++ line.line] }) ∧
    ((strTruthy line.audio_file && qTruthy line.duration) = true →
      (dialogueStep cloud s line).acts = s.acts ++
        [dialogueCommand cloud s.dst (line.audio_file.getD "")
          (line.duration.getD 0)
          (allocTrack s.dst (line.duration.getD 0) s.alloc).1] ∧
      (dialogueStep cloud s line).dst = s.dst + line.duration.getD 0 ∧
      line.duration.getD 0 ≠ 0) := by
  constructor
  · intro h
    simp [dialogueStep, h]
  · intro h
    have hq : qTruthy line.duration = true := (Bool.and_eq_true _ _ |>.mp h).2
    refine ⟨by simp [dialogueStep, h], by simp [dialogueStep, h], ?_⟩
    cases hd : line.duration with
    | none => rw [hd] at hq; exact Bool.noConfusion hq
    | some d =>
      rw [hd] at hq
      simpa using bne_iff_ne.mp hq

/-- Witness for C7: the unresolved line is skipped with only a log
appended, and the resolved line advances the offset by its duration. -/
theorem dialogue_line_skip_rule_witness :
    dialogueStep "c" ⟨0, ⟨1, []⟩, [], []⟩ lineNoAudio =
      { dst := 0, alloc := ⟨1, []⟩, acts := []
        logs := ["No audio file or duration for dialogue line: " ++
          lineNoAudio.line] } ∧
    (dialogueStep "c" ⟨0, ⟨1, []⟩, [], []⟩ diaLine).dst =
      0 + diaLine.duration.getD 0 :=
  ⟨(dialogue_line_skip_rule "c" ⟨0, ⟨1, []⟩, [], []⟩ lineNoAudio).1 rfl,
    ((dialogue_line_skip_rule "c" ⟨0, ⟨1, []⟩, [], []⟩ diaLine).2 rfl).2.1⟩

/-- Claim C8: two contentless shots of durations 5 and 3 emit zero
commands and leave current_time at 8 — each shot contributes its full
declared duration even when empty. -/
theorem timeline_empty_shots :
    (video_idea_to_timeline_commands "c" ⟨[shotA, shotB]⟩).actions = [] ∧
      (video_idea_to_timeline_commands "c" ⟨[shotA, shotB]⟩).time = 8 := by
  with_unfolding_all decide

/-- Claim C9: the three dialogue lines are emitted back to back at
offsets 0, 2 and 4, all on the single dynamically allocated audio track
1, and no second track is ever allocated (audio_next_track ends at
2). -/
theorem timeline_dialogue_single_track :
    (video_idea_to_timeline_commands "c" cx9).actions.map ClipCommand.start =
        [0, 2, 4] ∧
      (video_idea_to_timeline_commands "c" cx9).actions.map ClipCommand.track =
        [1, 1, 1] ∧
      (video_idea_to_timeline_commands "c" cx9).actions.length = 3 ∧
      (video_idea_to_timeline_commands "c" cx9).alloc.next = 2 := by
  with_unfolding_all decide



theorem findFree_some {start : ℚ} {ends : List (Nat × ℚ)} {te : Nat × ℚ}
    (h : findFree start ends = some te) : te ∈ ends ∧ te.2 ≤ start := by
  induction ends with
  | nil => cases h
  | cons p rest ih =>
    obtain ⟨t, e⟩ := p
    by_cases hc : start ≥ e
    · simp only [findFree, if_pos hc] at h
      obtain rfl := Option.some.inj h
      exact ⟨List.mem_cons_self _ _, hc⟩
    · simp only [findFree, if_neg hc] at h
      exact ⟨List.mem_cons_of_mem _ (ih h).1, (ih h).2⟩

theorem mem_setEnd_self (t : Nat) (e : ℚ) (ends : List (Nat × ℚ)) :
    (t, e) ∈ setEnd t e ends := by
  induction ends with
  | nil => simp [setEnd]
  | cons p rest ih =>
    obtain ⟨u, v⟩ := p
    by_cases h : u = t <;> simp [setEnd, h, ih]

theorem mem_setEnd_of_ne {p : Nat × ℚ} {ends : List (Nat × ℚ)} (t : Nat) (e : ℚ)
    (hne : p.1 ≠ t) (hp : p ∈ ends) : p ∈ setEnd t e ends := by
  induction ends with
  | nil => cases hp
  | cons q rest ih =>
    obtain ⟨u, v⟩ := q
    rcases List.mem_cons.mp hp with rfl | hmem
    · have : u ≠ t := hne
      simp [setEnd, this]
    · by_cases h : u = t
      · subst h
        simp only [setEnd, if_pos rfl]
        exact List.mem_cons_of_mem _ hmem
      · simp only [setEnd, if_neg h]
        exact List.mem_cons_of_mem _ (ih hmem)

theorem mem_setEnd_cases {p : Nat × ℚ} {t : Nat} {e : ℚ} {ends : List (Nat × ℚ)}
    (hp : p ∈ setEnd t e ends) : p = (t, e) ∨ p ∈ ends := by
  induction ends with
  | nil => simpa [setEnd] using hp
  | cons q rest ih =>
    obtain ⟨u, v⟩ := q
    by_cases h : u = t
    · subst h
      rcases List.mem_cons.mp (by simpa [setEnd] using hp) with rfl | hmem
      · exact Or.inl rfl
      · exact Or.inr (List.mem_cons_of_mem _ hmem)
    · rcases List.mem_cons.mp (by simpa [setEnd, h] using hp) with rfl | hmem
      · exact Or.inr (List.mem_cons_self _ _)
      · rcases ih hmem with h1 | h2
        · exact Or.inl h1
        · exact Or.inr (List.mem_cons_of_mem _ h2)

theorem setEnd_of_not_mem {t : Nat} {ends : List (Nat × ℚ)} (e : ℚ)
    (h : t ∉ ends.map Prod.fst) : setEnd t e ends = ends ++ [(t, e)] := by
  induction ends with
  | nil => rfl
  | cons q rest ih =>
    obtain ⟨u, v⟩ := q
    have hu : u ≠ t := by
      intro heq
      exact h (by simp [heq])
    have hrest : t ∉ rest.map Prod.fst := by
      intro hm
      exact h (by simp [hm])
    simp [setEnd, hu, ih hrest]

theorem map_fst_setEnd_of_mem {t : Nat} {ends : List (Nat × ℚ)} (e : ℚ)
    (h : t ∈ ends.map Prod.fst) :
    (setEnd t e ends).map Prod.fst = ends.map Prod.fst := by
  induction ends with
  | nil => cases h
  | cons q rest ih =>
    obtain ⟨u, v⟩ := q
    by_cases hu : u = t
    · subst hu
      simp [setEnd]
    · have hrest : t ∈ rest.map Prod.fst := by
        rcases List.mem_map.mp h with ⟨p, hp, hfst⟩
        rcases List.mem_cons.mp hp with rfl | hm
        · exact absurd hfst hu
        · exact List.mem_map.mpr ⟨p, hm, hfst⟩
      simp [setEnd, hu, ih hrest]

theorem mem_unique_of_nodup_keys {ends : List (Nat × ℚ)}
    (hnd : (ends.map Prod.fst).Nodup) {t : Nat} {e1 e2 : ℚ}
    (h1 : (t, e1) ∈ ends) (h2 : (t, e2) ∈ ends) : e1 = e2 := by
  induction ends with
  | nil => cases h1
  | cons q rest ih =>
    obtain ⟨u, v⟩ := q
    rw [List.map_cons] at hnd
    obtain ⟨hnotin, hnd2⟩ := List.nodup_cons.mp hnd
    rcases List.mem_cons.mp h1 with heq1 | hm1 <;>
      rcases List.mem_cons.mp h2 with heq2 | hm2
    · cases heq1
      injection heq2 with ha hb
      exact hb.symm
    · cases heq1
      exact absurd (List.mem_map.mpr ⟨(t, e2), hm2, rfl⟩) hnotin
    · cases heq2
      exact absurd (List.mem_map.mpr ⟨(t, e1), hm1, rfl⟩) hnotin
    · exact ih hnd2 hm1 hm2


theorem audioClips_append (l1 l2 : List ClipCommand) :
    audioClips (l1 ++ l2) = audioClips l1 ++ audioClips l2 :=
  by simp [audioClips]

theorem allocTrack_inv {a : AllocState} {acts : List ClipCommand} {start dur : ℚ}
    (hdur : 0 ≤ dur) (hinv : AllocInv a acts) {c : ClipCommand}
    (htr : c.track = (allocTrack start dur a).1)
    (hst : c.start = start) (hlen : c.length = dur)
    (hty : c.assetType = AssetType.audio) :
    AllocInv (allocTrack start dur a).2 (acts ++ [c]) := by
  obtain ⟨hnd, hbound, hcover, hpw⟩ := hinv
  have haudioc : audioClips [c] = [c] := by simp [audioClips, hty]
  cases hff : findFree start a.ends with
  | some te =>
    obtain ⟨t, e⟩ := te
    obtain ⟨hmem, hle⟩ := findFree_some hff
    have halloc : allocTrack start dur a =
        (t, ⟨a.next, setEnd t (start + dur) a.ends⟩) := by
      simp [allocTrack, hff]
    rw [halloc] at htr ⊢
    have htmem : t ∈ a.ends.map Prod.fst := List.mem_map.mpr ⟨(t, e), hmem, rfl⟩
    refine ⟨?_, ?_, ?_, ?_⟩
    · rw [map_fst_setEnd_of_mem _ htmem]
      exact hnd
    · intro p hp
      rcases mem_setEnd_cases hp with rfl | hpm
      · exact hbound (t, e) hmem
      · exact hbound p hpm
    · intro c' hc' hty'
      rcases List.mem_append.mp hc' with hold | hnew
      · obtain ⟨e', hmem', hle'⟩ := hcover c' hold hty'
        by_cases hct : c'.track = t
        · refine ⟨start + dur, ?_, ?_⟩
          · rw [hct]
            exact mem_setEnd_self _ _ _
          · have he : e' = e := mem_unique_of_nodup_keys hnd (hct ▸ hmem') hmem
            calc c'.start + c'.length ≤ e' := hle'
              _ = e := he
              _ ≤ start := hle
              _ ≤ start + dur := by linarith
        · exact ⟨e', mem_setEnd_of_ne _ _ hct hmem', hle'⟩
      · obtain rfl := List.mem_singleton.mp hnew
        refine ⟨start + dur, ?_, ?_⟩
        · rw [htr]
          exact mem_setEnd_self _ _ _
        · rw [hst, hlen]
    · rw [audioClips_append, haudioc]
      unfold noTrackOverlap at hpw ⊢
      rw [List.pairwise_append]
      refine ⟨hpw, List.pairwise_singleton _ _, ?_⟩
      intro x hx y hy
      obtain rfl := List.mem_singleton.mp hy
      intro hxy
      obtain ⟨hxmem, hxty⟩ := List.mem_filter.mp hx
      obtain ⟨e', hmem', hle'⟩ := hcover x hxmem (by simpa using hxty)
      have hxt : x.track = t := by rw [hxy, htr]
      have he : e' = e := mem_unique_of_nodup_keys hnd (hxt ▸ hmem') hmem
      left
      rw [hst]
      calc x.start + x.length ≤ e' := hle'
        _ = e := he
        _ ≤ start := hle
  | none =>
    have halloc : allocTrack start dur a =
        (a.next, ⟨a.next + 1, setEnd a.next (start + dur) a.ends⟩) := by
      simp [allocTrack, hff]
    rw [halloc] at htr ⊢
    have hnotmem : a.next ∉ a.ends.map Prod.fst := by
      intro hm
      obtain ⟨p, hp, hfst⟩ := List.mem_map.mp hm
      exact absurd (hfst ▸ hbound p hp) (lt_irrefl _)
    have hset : setEnd a.next (start + dur) a.ends = a.ends ++ [(a.next, start + dur)] :=
      setEnd_of_not_mem _ hnotmem
    refine ⟨?_, ?_, ?_, ?_⟩
    · rw [hset, List.map_append]
      rw [List.nodup_append]
      refine ⟨hnd, List.nodup_singleton _, ?_⟩
      intro x hx hx2
      simp only [List.map_cons, List.map_nil, List.mem_singleton] at hx2
      subst hx2
      exact hnotmem hx
    · intro p hp
      rw [hset] at hp
      rcases List.mem_append.mp hp with hold | hnew
      · exact Nat.lt_trans (hbound p hold) (Nat.lt_succ_self _)
      · obtain rfl := List.mem_singleton.mp hnew
        exact Nat.lt_succ_self _
    · intro c' hc' hty'
      rcases List.mem_append.mp hc' with hold | hnew
      · obtain ⟨e', hmem', hle'⟩ := hcover c' hold hty'
        exact ⟨e', by rw [hset]; exact List.mem_append_left _ hmem', hle'⟩
      · obtain rfl := List.mem_singleton.mp hnew
        refine ⟨start + dur, ?_, by rw [hst, hlen]⟩
        rw [htr, hset]
        exact List.mem_append_right _ (List.mem_singleton.mpr rfl)
    · rw [audioClips_append, haudioc]
      unfold noTrackOverlap at hpw ⊢
      rw [List.pairwise_append]
      refine ⟨hpw, List.pairwise_singleton _ _, ?_⟩
      intro x hx y hy
      obtain rfl := List.mem_singleton.mp hy
      intro hxy
      obtain ⟨hxmem, hxty⟩ := List.mem_filter.mp hx
      obtain ⟨e', hmem', _⟩ := hcover x hxmem (by simpa using hxty)
      have : x.track < a.next := hbound (x.track, e') hmem'
      rw [hxy, htr] at this
      exact absurd this (lt_irrefl _)


theorem imageCommands_video (cloud : String) (time : ℚ) (shotNum : Nat)
    (imgs : List ImageLayer) :
    ∀ c ∈ imageCommands cloud time shotNum imgs,
      c.assetType = AssetType.video := by
  intro c hc
  obtain ⟨img, _, rfl⟩ := List.mem_map.mp hc
  rfl

theorem video_append_inv {a : AllocState} {acts : List ClipCommand}
    (vids : List ClipCommand)
    (hv : ∀ c ∈ vids, c.assetType = AssetType.video)
    (hinv : AllocInv a acts) : AllocInv a (acts ++ vids) := by
  obtain ⟨hnd, hb, hcover, hpw⟩ := hinv
  have hfilter : audioClips vids = [] := by
    rw [audioClips, List.filter_eq_nil_iff]
    intro c hc
    rw [hv c hc]
    decide
  refine ⟨hnd, hb, ?_, ?_⟩
  · intro c hc hty
    rcases List.mem_append.mp hc with h | h
    · exact hcover c h hty
    · rw [hv c h] at hty
      exact absurd hty (by decide)
  · rw [audioClips_append, hfilter, List.append_nil]
    exact hpw

theorem soundsFold_inv (cloud : String) (time : ℚ) (shotNum : Nat)
    (ses : List SoundEffect) :
    ∀ (alloc : AllocState) (acts : List ClipCommand),
      (∀ se ∈ ses, 0 ≤ se.duration) → AllocInv alloc acts →
      AllocInv (soundsFold cloud time shotNum (alloc, acts) ses).1
        (soundsFold cloud time shotNum (alloc, acts) ses).2 := by
  induction ses with
  | nil =>
    intro alloc acts _ hinv
    simpa [soundsFold] using hinv
  | cons se rest ih =>
    intro alloc acts hdur hinv
    have hstep := @allocTrack_inv alloc acts time se.duration
      (hdur se (List.mem_cons_self _ _)) hinv
      (soundCommand cloud time shotNum se (allocTrack time se.duration alloc).1)
      rfl rfl rfl rfl
    simp only [soundsFold]
    exact ih _ _ (fun se' h' => hdur se' (List.mem_cons_of_mem _ h')) hstep

theorem dialogueFold_inv (cloud : String) (lines : List DialogueLine) :
    ∀ (s : DiaState), (∀ l ∈ lines, 0 ≤ l.duration.getD 0) →
      AllocInv s.alloc s.acts →
      AllocInv (dialogueFold cloud s lines).alloc
        (dialogueFold cloud s lines).acts := by
  induction lines with
  | nil =>
    intro s _ h
    exact h
  | cons line rest ih =>
    intro s hdur hinv
    simp only [dialogueFold]
    refine ih _ (fun l h => hdur l (List.mem_cons_of_mem _ h)) ?_
    by_cases hc : (strTruthy line.audio_file && qTruthy line.duration) = true
    · have hstep := @allocTrack_inv s.alloc s.acts s.dst (line.duration.getD 0)
        (hdur line (List.mem_cons_self _ _)) hinv
        (dialogueCommand cloud s.dst (line.audio_file.getD "")
          (line.duration.getD 0)
          (allocTrack s.dst (line.duration.getD 0) s.alloc).1)
        rfl rfl rfl rfl
      simpa [dialogueStep, hc] using hstep
    · have hc' : (strTruthy line.audio_file && qTruthy line.duration) = false := by
        simpa using hc
      simpa [dialogueStep, hc'] using hinv

theorem processShot_inv (cloud : String) (st : SynthState) (shot : DetailedShot)
    (hse : ∀ se ∈ shot.sound_effects, 0 ≤ se.duration)
    (hdl : ∀ l ∈ shot.dialogue, 0 ≤ l.duration.getD 0)
    (hinv : AllocInv st.alloc st.actions) :
    AllocInv (processShot cloud st shot).alloc
      (processShot cloud st shot).actions := by
  have h1 : AllocInv st.alloc
      (st.actions ++ imageCommands cloud st.time shot.shot_number shot.images) :=
    video_append_inv _ (imageCommands_video cloud st.time shot.shot_number shot.images) hinv
  have h2 := soundsFold_inv cloud st.time shot.shot_number shot.sound_effects
    st.alloc (st.actions ++ imageCommands cloud st.time shot.shot_number shot.images)
    hse h1
  have h3 := dialogueFold_inv cloud shot.dialogue
    ⟨st.time,
      (soundsFold cloud st.time shot.shot_number
        (st.alloc, st.actions ++ imageCommands cloud st.time shot.shot_number shot.images)
        shot.sound_effects).1,
      (soundsFold cloud st.time shot.shot_number
        (st.alloc, st.actions ++ imageCommands cloud st.time shot.shot_number shot.images)
        shot.sound_effects).2,
      st.logs⟩ hdl h2
  exact h3

theorem shotsFold_inv (cloud : String) (shots : List DetailedShot) :
    ∀ st : SynthState, (∀ shot ∈ shots, ValidShot shot) →
      AllocInv st.alloc st.actions →
      AllocInv (shotsFold cloud st shots).alloc
        (shotsFold cloud st shots).actions := by
  induction shots with
  | nil =>
    intro st _ h
    exact h
  | cons shot rest ih =>
    intro st hv hinv
    simp only [shotsFold]
    refine ih _ (fun s h => hv s (List.mem_cons_of_mem _ h)) ?_
    obtain ⟨_, _, himg, hse, hdl⟩ := hv shot (List.mem_cons_self _ _)
    exact processShot_inv cloud st shot
      (fun se h => le_trans (by norm_num) (hse se h)) hdl hinv

/-- Claim C1, amended: over the audio commands of the emitted command
set, no two commands with the same track number have overlapping
half-open intervals — the dynamic allocator only reuses a track whose
recorded free time has passed.  The claim fails for mixed video/audio
pairs (and for video/video pairs within a shot), because fixed video
tracks 1/2/3 and dynamically allocated audio tracks share the same
numbering, as the counterexample shows. -/
theorem timeline_no_audio_track_overlap (cloud : String)
    (v : DetailedStorySchema) (hv : ValidSchema v) :
    noTrackOverlap (audioClips (video_idea_to_timeline_commands cloud v).actions) := by
  have hinit : AllocInv (⟨1, []⟩ : AllocState) ([] : List ClipCommand) := by
    refine ⟨List.nodup_nil, ?_, ?_, List.Pairwise.nil⟩
    · intro p hp
      cases hp
    · intro c hc
      cases hc
  exact (shotsFold_inv cloud v.shots ⟨0, ⟨1, []⟩, [], []⟩ hv hinit).2.2.2

/-- Witness for the amended C1 at the three-dialogue-line schema: its
three audio commands share track 1 back to back without overlap. -/
theorem timeline_no_audio_track_overlap_witness :
    noTrackOverlap (audioClips (video_idea_to_timeline_commands "c" cx9).actions) :=
  timeline_no_audio_track_overlap "c" cx9 (by
    intro shot hs
    simp only [cx9, List.mem_singleton] at hs
    subst hs
    refine ⟨by norm_num, by norm_num, ?_, ?_, ?_⟩
    · intro img hi
      simp at hi
    · intro se hse
      simp at hse
    · intro line hl
      simp only [List.mem_cons, List.not_mem_nil, or_false] at hl
      rcases hl with rfl | rfl | rfl <;> norm_num [diaLine])

end Verba
